import Mathlib

/-!
Verification of the segment-timeline orchestration engine of the
voice-to-voice translation program.

The Python source is shallowly embedded:
* a recognized segment dict `{"start", "end", "text"}` becomes `Segment`
  (`endTime` embeds the dict key `"end"`, which is reserved in Lean);
* the stages `TranslationProcessor.translate_segments`,
  `TranslationProcessor.translate_with_context`,
  `TTSProcessor.synthesize_segments` and `TTSProcessor.combine_segments`
  become pure functions over lists;
* the external ML models are capability parameters: the translator is a
  function `String → Option String` and the synthesizer a function
  `String → Option (List ℚ)`, where `none` embeds "the call raised an
  exception" (for the synthesizer also "no file was produced");
* an audio file is identified with its sample buffer (`List ℚ`, float
  samples modelled exactly as rationals), a written wav path with the
  buffer that was written to it;
* times and durations are rationals; Python `int(x)` truncation is `pyInt`.
-/

/-- One recognized speech span, as produced by `ASRProcessor.transcribe`:
the dict keys `"start"`, `"end"`, `"text"` (the extra keys `"duration"`,
`"words"` are never read downstream and are omitted). `endTime` embeds the
key `"end"`. -/
structure Segment where
  start : ℚ
  endTime : ℚ
  text : String
deriving DecidableEq

/-- A segment after the translate stage: `{**segment, "original_text": …,
"translated_text": …}`. The untouched base keys are kept as `seg`. -/
structure TranslatedSegment where
  seg : Segment
  original_text : String
  translated_text : String
deriving DecidableEq

/-- A segment after the synthesize stage: `{**segment, "audio_path": …}`.
`audio_path` is `none` when the code stored `None` (failure or empty text);
when it is `some a`, the wav file at the path holds the sample buffer `a`
(already at the compositor's target rate; resampling by `librosa.resample`
is subsumed by quantifying over arbitrary buffer contents). -/
structure SynthSegment where
  base : TranslatedSegment
  audio_path : Option (List ℚ)
deriving DecidableEq

/-- The whitespace characters stripped by Python `str.strip()` (ASCII
subset; the texts in this development are ASCII). -/
def isPyWs (c : Char) : Bool :=
  c == ' ' || c == '\t' || c == '\n' || c == '\r' || c == '\x0b' || c == '\x0c'

/-- Python `not text or not text.strip()`: true iff every character of the
string is whitespace (in particular for the empty string). -/
def blank (s : String) : Bool := s.data.all isPyWs

/-- Embeds `TranslationProcessor.translate_text`: returns `""` without invoking
the model when the text is blank; otherwise invokes the translator, and an
exception from the model is logged and re-raised (`none`). -/
def translateText (tr : String → Option String) (text : String) : Option String :=
  if blank text then some "" else tr text

/-- The loop body of `TranslationProcessor.translate_segments`, applied to
one segment: blank text short-circuits to `""`; otherwise the segment is
translated, and on an exception the segment keeps its own text
(`"translated_text": segment["text"]`, identity fallback). -/
def translateElem (tr : String → Option String) (s : Segment) : TranslatedSegment :=
  if blank s.text then ⟨s, s.text, ""⟩
  else
    match tr s.text with
    | some t => ⟨s, s.text, t⟩
    | none => ⟨s, s.text, s.text⟩

/-- Embeds `TranslationProcessor.translate_segments`, instrumented with the list
of texts actually passed to the translation model (second component, in
loop order): the model is invoked exactly once per non-blank segment. -/
def translateSegmentsCalls (tr : String → Option String) :
    List Segment → List TranslatedSegment × List String
  | [] => ([], [])
  | s :: rest =>
    let r := translateSegmentsCalls tr rest
    if blank s.text then
      (⟨s, s.text, ""⟩ :: r.1, r.2)
    else
      match tr s.text with
      | some t => (⟨s, s.text, t⟩ :: r.1, s.text :: r.2)
      | none => (⟨s, s.text, s.text⟩ :: r.1, s.text :: r.2)

/-- Embeds `TranslationProcessor.translate_segments`: the produced segment list. -/
def translate_segments (tr : String → Option String) (segments : List Segment) :
    List TranslatedSegment :=
  (translateSegmentsCalls tr segments).1

/-- The texts passed to the translation model by `translate_segments`. -/
def translateCalls (tr : String → Option String) (segments : List Segment) :
    List String :=
  (translateSegmentsCalls tr segments).2

/-- The context window text of `translate_with_context`:
`" ".join(s["text"] for s in segments[max(0, i-w) : min(len, i+w+1)])`. -/
def contextText (segments : List Segment) (context_window i : ℕ) : String :=
  let startIdx := i - context_window
  let endIdx := min segments.length (i + context_window + 1)
  String.intercalate " " (((segments.drop startIdx).take (endIdx - startIdx)).map (fun s => s.text))

/-- Embeds `TranslationProcessor.translate_with_context`: for each segment the
context-window text is translated first, then the segment alone, and only
the per-segment translation is kept; an exception from either call (the
loop's `try` spans both) falls back to the segment's own text. -/
def translate_with_context (tr : String → Option String) (context_window : ℕ)
    (segments : List Segment) : List TranslatedSegment :=
  segments.enum.map (fun p =>
    match translateText tr (contextText segments context_window p.1),
          translateText tr p.2.text with
    | some _, some t => ⟨p.2, p.2.text, t⟩
    | _, _ => ⟨p.2, p.2.text, p.2.text⟩)

/-- The loop body of `TTSProcessor.synthesize_segments` on one translated
segment (the code reads `segment.get("translated_text", …)`, always present
after the translate stage): blank text skips synthesis with
`"audio_path": None`; otherwise `synthesize_text` is called, and an
exception is absorbed into `"audio_path": None`. -/
def synthElem (synth : String → Option (List ℚ)) (t : TranslatedSegment) : SynthSegment :=
  ⟨t, if blank t.translated_text then none else synth t.translated_text⟩

/-- Embeds `TTSProcessor.synthesize_segments`, instrumented with the texts passed
to the TTS model (second component, in loop order). -/
def synthesizeSegmentsCalls (synth : String → Option (List ℚ)) :
    List TranslatedSegment → List SynthSegment × List String
  | [] => ([], [])
  | t :: rest =>
    let r := synthesizeSegmentsCalls synth rest
    if blank t.translated_text then
      (⟨t, none⟩ :: r.1, r.2)
    else
      match synth t.translated_text with
      | some a => (⟨t, some a⟩ :: r.1, t.translated_text :: r.2)
      | none => (⟨t, none⟩ :: r.1, t.translated_text :: r.2)

/-- Embeds `TTSProcessor.synthesize_segments`: the produced segment list. -/
def synthesize_segments (synth : String → Option (List ℚ))
    (segments : List TranslatedSegment) : List SynthSegment :=
  (synthesizeSegmentsCalls synth segments).1

/-- The texts passed to the TTS model by `synthesize_segments`. -/
def synthCalls (synth : String → Option (List ℚ))
    (segments : List TranslatedSegment) : List String :=
  (synthesizeSegmentsCalls synth segments).2

/-- Python `int(x)` on a float: truncation toward zero. -/
def pyInt (q : ℚ) : ℤ := if 0 ≤ q then ⌊q⌋ else ⌈q⌉

/-- Embeds `start_sample = int(segment["start"] * sample_rate)` of
`TTSProcessor.combine_segments`, as a list index. The `toNat` is exact for
the nonnegative start times the recognizer produces (numpy's
negative-index wraparound is not modelled; theorems that reason about
where a clip lands assume `0 ≤ start`). -/
def startSample (rate : ℕ) (s : Segment) : ℕ := (pyInt (s.start * rate)).toNat

/-- One slice assignment of `combine_segments`:
`end_sample = start_sample + len(audio)`, clamped to the buffer end with
the clip truncated (`audio = audio[:end_sample - start_sample]`), then
`combined_audio[start_sample:end_sample] = audio`. When `start_sample`
lies beyond the buffer, the numpy target slice is empty: Python's negative
slice bound leaves the truncated clip empty exactly when
`len(audio) ≤ start_sample - len(buffer)`, and otherwise the shape
mismatch raises a `ValueError` (embedded as `none`). -/
def writeClip (buf : List ℚ) (pos : ℕ) (clip : List ℚ) : Option (List ℚ) :=
  if pos ≤ buf.length then
    some (buf.take pos ++ clip.take (buf.length - pos)
      ++ buf.drop (pos + (clip.take (buf.length - pos)).length))
  else if clip.length ≤ pos - buf.length then some buf
  else none

/-- The `for` loop of `combine_segments`: segments whose `audio_path` is
absent are skipped (`continue`); each present clip is slice-assigned into
the buffer; an exception aborts the loop and is re-raised. -/
def placeSegments (rate : ℕ) (segments : List SynthSegment) (buf : List ℚ) :
    Option (List ℚ) :=
  match segments with
  | [] => some buf
  | s :: rest =>
    match s.audio_path with
    | none => placeSegments rate rest buf
    | some a =>
      match writeClip buf (startSample rate s.base.seg) a with
      | none => none
      | some b => placeSegments rate rest b

/-- Embeds `TTSProcessor.combine_segments`: with no segments it logs an error and
returns `None` (no file written); otherwise it allocates
`np.zeros(int(segments[-1]["end"] * sample_rate))` and lays every present
clip at its start sample. `some buf` means the combined file was written
with buffer `buf`; `none` means no file was produced (empty input, or a
raised exception). -/
def combine_segments (segments : List SynthSegment) (rate : ℕ) : Option (List ℚ) :=
  match segments.getLast? with
  | none => none
  | some last =>
    placeSegments rate segments
      (List.replicate (pyInt (last.base.seg.endTime * rate)).toNat (0 : ℚ))

/-- A healthy one-segment input used to witness `combine_length_eq_trunc`. -/
def c1seg : SynthSegment := ⟨⟨⟨0, 2, "hi"⟩, "hi", "hi"⟩, none⟩

/-- The segment refuting C1 as stated: its end time is `3/4` s, so at
2 samples/s the buffer gets `int(1.5) = 1` sample, not `round(1.5) = 2`. -/
def c1cexSeg : SynthSegment := ⟨⟨⟨0, 3 / 4, "a"⟩, "a", "A"⟩, none⟩

/-- The segment used to witness the identity fallback. -/
def csegA : Segment := ⟨0, 1, "a"⟩

/-- The blank-text segment used to witness the short-circuit. -/
def csegBlank : Segment := ⟨0, 1, ""⟩

/-- A translated segment whose synthesis is made to fail in the witness. -/
def ts8 : TranslatedSegment := ⟨⟨0, 2, "x"⟩, "x", "X"⟩

/-- Witness segment carrying audio: spans `[0, 2]` s with a 4-sample clip. -/
def c8w0 : SynthSegment := ⟨⟨⟨0, 2, "a"⟩, "a", "A"⟩, some [1, 1, 1, 1]⟩

/-- Witness segment without audio: spans `[2, 4]` s. -/
def c8w1 : SynthSegment := ⟨⟨⟨2, 4, "b"⟩, "b", "B"⟩, none⟩

/-- Segment with audio spilling past its own span: clip of 4 samples from
`start = 0` at rate 2 covers samples `0..3`, i.e. up to time 2 s. -/
def cxA : SynthSegment := ⟨⟨⟨0, 2, "a"⟩, "a", "A"⟩, some [1, 1, 1, 1]⟩

/-- Audio-less segment spanning `[1, 3]` s, whose region (samples `2..5`
at rate 2) overlaps `cxA`'s written clip. -/
def cxB : SynthSegment := ⟨⟨⟨1, 3, "b"⟩, "b", "B"⟩, none⟩

/-- The deterministic (partial) translator of the C5 counterexample: it
translates the single words but raises on the joined context window. -/
def ctr : String → Option String :=
  fun t => if t = "a" then some "A" else if t = "b" then some "B" else none

/-- Two-segment input for the C5 counterexample. -/
def csegs5 : List Segment := [⟨0, 1, "a"⟩, ⟨1, 2, "b"⟩]

/-- Embeds `AudioProcessor.time_stretch`: a thin wrapper around the external
phase-vocoder call (`librosa.effects.time_stretch`), passed in as the
capability `stretch`; its `try/except` logs and re-raises, so a failure
(`none`) propagates unchanged. -/
def time_stretch (stretch : List ℚ → ℚ → Option (List ℚ))
    (audio_data : List ℚ) (rate : ℚ) : Option (List ℚ) :=
  stretch audio_data rate

/-- Embeds `AudioProcessor.match_duration`: stretches by
`rate = current_duration / target_duration` where
`current_duration = len(audio_data) / sample_rate`. -/
def match_duration (stretch : List ℚ → ℚ → Option (List ℚ))
    (audio_data : List ℚ) (target_duration : ℚ) (sample_rate : ℕ) : Option (List ℚ) :=
  time_stretch stretch audio_data
    (((audio_data.length : ℚ) / (sample_rate : ℚ)) / target_duration)

/-- The duration-sync block of `ProcessingThread.run` (step 5): compares the
original duration with the combined file's duration
(`len(buffer) / sample_rate`) and only when they differ by more than the
fixed 1.0-second tolerance loads the combined audio and applies
`match_duration`, saving the result over the combined file; within
tolerance the combined file is left untouched. -/
def syncStep (stretch : List ℚ → ℚ → Option (List ℚ)) (original_duration : ℚ)
    (buf : List ℚ) (sample_rate : ℕ) : Option (List ℚ) :=
  if 1 < |original_duration - (buf.length : ℚ) / (sample_rate : ℚ)| then
    match_duration stretch buf original_duration sample_rate
  else some buf

/-- The external collaborators and per-run inputs of one
`ProcessingThread.run` execution: whether audio extraction succeeds, the
ASR result (`none` = the recognizer or its model load raised), the
translation and synthesis models, the source file's duration as read by
`get_audio_duration`, and the time-stretch capability. File saves
(transcript, subtitles, translation, wav write) are modelled as always
succeeding; progress signalling carries no data and is omitted. -/
structure RunDeps where
  extractOk : Bool
  transcription : Option (List Segment)
  translator : String → Option String
  synth : String → Option (List ℚ)
  origDur : ℚ
  stretch : List ℚ → ℚ → Option (List ℚ)

/-- The terminal state of one run: `finished.emit(True, …)` with the final
audio, or `finished.emit(False, …)` from the outer `except`. -/
inductive RunOutcome where
  | succeeded : List ℚ → RunOutcome
  | failed : RunOutcome
deriving DecidableEq

/-- Step 3 of the run: quality mode (`"Контекстный (максимальное
качество)"`) uses `translate_with_context`, fast mode uses
`translate_segments`. -/
def translatePhase (d : RunDeps) (quality : Bool) (segments : List Segment) :
    List TranslatedSegment :=
  if quality then translate_with_context d.translator 2 segments
  else translate_segments d.translator segments

/-- The tail of the run: with a final combined buffer in hand the three
`unload_model` calls run (in source order: ASR, translation, TTS) and
success is emitted; with `none` — some step raised, or the combined file
was never written and the next file operation on it raised — control is in
the outer `except`, which emits failure without reaching any
`unload_model` call (there is no `finally`). -/
def finishRun : Option (List ℚ) → RunOutcome × List String
  | none => (RunOutcome.failed, [])
  | some finalBuf => (RunOutcome.succeeded finalBuf, ["asr", "translation", "tts"])

/-- Embeds `ProcessingThread.run`, at the target sample rate `rate` (16000 for
both `combine_segments`' default and `load_audio`'s resample target in the
application): extraction, recognition, translation, synthesis, composition,
optional duration sync, then the success tail; any raised step lands in the
outer `except` as `Failed` with no unloads. The composed buffer is written
to the combined wav and read back for the sync step; a `combine_segments`
result of `none` means that file does not exist, so the following file
operation on it raises. -/
def runPipeline (d : RunDeps) (quality syncDuration : Bool) (rate : ℕ) :
    RunOutcome × List String :=
  match d.extractOk, d.transcription with
  | false, _ => (RunOutcome.failed, [])
  | true, none => (RunOutcome.failed, [])
  | true, some segs =>
    finishRun
      ((combine_segments (synthesize_segments d.synth
          (translatePhase d quality segs)) rate).bind
        (fun buf => if syncDuration then syncStep d.stretch d.origDur buf rate
          else some buf))

/-- The recognized segment of the concrete run evaluations. -/
def seg1 : Segment := ⟨0, 2, "hi"⟩

/-- The identity translator used by the concrete runs. -/
def trId : String → Option String := fun t => some t

/-- A synthesizer producing a fixed 2-sample clip. -/
def syConst : String → Option (List ℚ) := fun _ => some [1, 1]

/-- An always-failing time-stretch capability. -/
def stFail : List ℚ → ℚ → Option (List ℚ) := fun _ _ => none

/-- Run inputs for which every stage succeeds and the composed duration
(2 s) is within tolerance of the source duration (2 s). -/
def sdeps : RunDeps := ⟨true, some [seg1], trId, syConst, 2, stFail⟩

/-- Run inputs whose ASR stage raises (`transcription = none`). -/
def fdeps : RunDeps := ⟨true, none, trId, syConst, 2, stFail⟩

/-- Run inputs for which all stages succeed but the composed duration (2 s)
is 28 s away from the source duration (30 s), so the sync step stretches —
and the stretch capability fails. -/
def cdeps3 : RunDeps := ⟨true, some [seg1], trId, syConst, 30, stFail⟩

lemma translateSegmentsCalls_fst (tr : String → Option String) (segments : List Segment) :
    (translateSegmentsCalls tr segments).1 = segments.map (translateElem tr) := by
  induction segments with
  | nil => rfl
  | cons s rest ih =>
    simp only [translateSegmentsCalls, translateElem, List.map_cons]
    by_cases h : blank s.text
    · simp [h, ih]
    · simp only [h, if_neg, Bool.false_eq_true, if_false]
      cases tr s.text <;> simp [ih]

lemma translate_segments_eq_map (tr : String → Option String) (segments : List Segment) :
    translate_segments tr segments = segments.map (translateElem tr) :=
  translateSegmentsCalls_fst tr segments

lemma translateCalls_eq (tr : String → Option String) (segments : List Segment) :
    translateCalls tr segments
      = (segments.filter (fun s => !blank s.text)).map (fun s => s.text) := by
  induction segments with
  | nil => rfl
  | cons s rest ih =>
    simp only [translateCalls, translateSegmentsCalls] at ih ⊢
    by_cases h : blank s.text
    · simp [h, List.filter_cons, ih]
    · simp only [h, Bool.false_eq_true, if_false, List.filter_cons, Bool.not_false]
      cases tr s.text <;> simp [h, ih]

lemma synthesizeSegmentsCalls_fst (synth : String → Option (List ℚ))
    (segments : List TranslatedSegment) :
    (synthesizeSegmentsCalls synth segments).1 = segments.map (synthElem synth) := by
  induction segments with
  | nil => rfl
  | cons t rest ih =>
    simp only [synthesizeSegmentsCalls, synthElem, List.map_cons]
    by_cases h : blank t.translated_text
    · simp [h, ih]
    · simp only [h, Bool.false_eq_true, if_false]
      cases synth t.translated_text <;> simp [ih]

lemma synthesize_segments_eq_map (synth : String → Option (List ℚ))
    (segments : List TranslatedSegment) :
    synthesize_segments synth segments = segments.map (synthElem synth) :=
  synthesizeSegmentsCalls_fst synth segments

lemma synthCalls_eq (synth : String → Option (List ℚ)) (segments : List TranslatedSegment) :
    synthCalls synth segments
      = (segments.filter (fun t => !blank t.translated_text)).map
          (fun t => t.translated_text) := by
  induction segments with
  | nil => rfl
  | cons t rest ih =>
    simp only [synthCalls, synthesizeSegmentsCalls] at ih ⊢
    by_cases h : blank t.translated_text
    · simp [h, List.filter_cons, ih]
    · simp only [h, Bool.false_eq_true, if_false, List.filter_cons, Bool.not_false]
      cases synth t.translated_text <;> simp [h, ih]

lemma writeClip_length {buf : List ℚ} {pos : ℕ} {clip b : List ℚ}
    (h : writeClip buf pos clip = some b) : b.length = buf.length := by
  unfold writeClip at h
  split at h
  · next hpos =>
    simp only [Option.some.injEq] at h
    subst h
    simp only [List.length_append, List.length_take, List.length_drop]
    omega
  · split at h
    · simp only [Option.some.injEq] at h
      subst h
      rfl
    · exact absurd h (by simp)

lemma writeClip_some_of_le {buf : List ℚ} {pos : ℕ} (clip : List ℚ)
    (h : pos ≤ buf.length) :
    ∃ b, writeClip buf pos clip = some b ∧ b.length = buf.length := by
  refine ⟨_, by unfold writeClip; rw [if_pos h], ?_⟩
  simp only [List.length_append, List.length_take, List.length_drop]
  omega

lemma writeClip_getElem_untouched {buf : List ℚ} {pos : ℕ} {clip b : List ℚ} {k : ℕ}
    (h : writeClip buf pos clip = some b)
    (hk : k < pos ∨ pos + min clip.length (buf.length - pos) ≤ k) :
    b[k]? = buf[k]? := by
  unfold writeClip at h
  split at h
  · next hpos =>
    simp only [Option.some.injEq] at h
    subst h
    have hA : (buf.take pos).length = pos := by
      simp [List.length_take, Nat.min_eq_left hpos]
    have hB : (clip.take (buf.length - pos)).length = min clip.length (buf.length - pos) := by
      simp [List.length_take, Nat.min_comm]
    rcases hk with hk | hk
    · rw [List.getElem?_append_left, List.getElem?_append_left, List.getElem?_take_of_lt hk]
      · omega
      · simp only [List.length_append]
        omega
    · rw [List.getElem?_append_right, List.getElem?_drop]
      · have hge : (buf.take pos ++ clip.take (buf.length - pos)).length ≤ k := by
          simp only [List.length_append]
          omega
        congr 1
        simp only [List.length_append]
        omega
      · simp only [List.length_append]
        omega
  · split at h
    · simp only [Option.some.injEq] at h
      subst h
      rfl
    · exact absurd h (by simp)

lemma placeSegments_length {rate : ℕ} :
    ∀ (segments : List SynthSegment) (buf b : List ℚ),
      placeSegments rate segments buf = some b → b.length = buf.length := by
  intro segments
  induction segments with
  | nil =>
    intro buf b h
    simp only [placeSegments, Option.some.injEq] at h
    subst h
    rfl
  | cons s rest ih =>
    intro buf b h
    cases ha : s.audio_path with
    | none =>
      simp only [placeSegments, ha] at h
      exact ih buf b h
    | some a =>
      simp only [placeSegments, ha] at h
      cases hw : writeClip buf (startSample rate s.base.seg) a with
      | none =>
        simp only [hw] at h
        exact absurd h (by simp)
      | some b1 =>
        simp only [hw] at h
        rw [ih b1 b h]
        exact writeClip_length hw

lemma placeSegments_some {rate : ℕ} :
    ∀ (segments : List SynthSegment) (buf : List ℚ),
      (∀ s ∈ segments, startSample rate s.base.seg ≤ buf.length) →
      ∃ b, placeSegments rate segments buf = some b ∧ b.length = buf.length := by
  intro segments
  induction segments with
  | nil =>
    intro buf _
    exact ⟨buf, rfl, rfl⟩
  | cons s rest ih =>
    intro buf hle
    cases ha : s.audio_path with
    | none =>
      obtain ⟨b, hb, hlen⟩ := ih buf (fun t ht => hle t (List.mem_cons_of_mem s ht))
      exact ⟨b, by simp only [placeSegments, ha]; exact hb, hlen⟩
    | some a =>
      obtain ⟨b1, hw, hlen1⟩ :=
        writeClip_some_of_le a (hle s (List.mem_cons_self s rest))
      obtain ⟨b, hb, hlen⟩ := ih b1 (fun t ht => by
        rw [hlen1]
        exact hle t (List.mem_cons_of_mem s ht))
      exact ⟨b, by simp only [placeSegments, ha, hw]; exact hb, hlen.trans hlen1⟩

lemma placeSegments_untouched {rate : ℕ} {k : ℕ} :
    ∀ (segments : List SynthSegment) (buf b : List ℚ),
      placeSegments rate segments buf = some b →
      (∀ s ∈ segments, ∀ a, s.audio_path = some a →
        k < startSample rate s.base.seg ∨
          startSample rate s.base.seg
            + min a.length (buf.length - startSample rate s.base.seg) ≤ k) →
      b[k]? = buf[k]? := by
  intro segments
  induction segments with
  | nil =>
    intro buf b h _
    simp only [placeSegments, Option.some.injEq] at h
    subst h
    rfl
  | cons s rest ih =>
    intro buf b h huntouched
    cases ha : s.audio_path with
    | none =>
      simp only [placeSegments, ha] at h
      exact ih buf b h (fun t ht => huntouched t (List.mem_cons_of_mem s ht))
    | some a =>
      simp only [placeSegments, ha] at h
      cases hw : writeClip buf (startSample rate s.base.seg) a with
      | none =>
        simp only [hw] at h
        exact absurd h (by simp)
      | some b1 =>
        simp only [hw] at h
        have hlen1 : b1.length = buf.length := writeClip_length hw
        have h1 : b1[k]? = buf[k]? :=
          writeClip_getElem_untouched hw
            (huntouched s (List.mem_cons_self s rest) a ha)
        have h2 : b[k]? = b1[k]? := by
          refine ih b1 b h (fun t ht a' ha' => ?_)
          rw [hlen1]
          exact huntouched t (List.mem_cons_of_mem s ht) a' ha'
        rw [h2, h1]

lemma pyInt_of_nonneg {q : ℚ} (h : 0 ≤ q) : pyInt q = ⌊q⌋ := if_pos h

lemma pyInt_eq {q : ℚ} {n : ℤ} (hq : 0 ≤ q) (h1 : (n : ℚ) ≤ q) (h2 : q < n + 1) :
    pyInt q = n := by
  rw [pyInt_of_nonneg hq]
  exact Int.floor_eq_iff.mpr ⟨h1, h2⟩

/-- C1 (amended): for every non-empty segment sequence whose start times
are nonnegative and do not exceed the last segment's end (as recognizer
output satisfies), `combine_segments` returns a buffer of exactly
`int(last_segment.end * sample_rate)` samples — `int()` truncation, not
`round()` — independent of which segments carry audio, of overlap and of
clip lengths. -/
theorem combine_length_eq_trunc (segments : List SynthSegment) (rate : ℕ)
    (last : SynthSegment) (hlast : segments.getLast? = some last)
    (hrange : ∀ s ∈ segments,
      0 ≤ s.base.seg.start ∧ s.base.seg.start ≤ last.base.seg.endTime) :
    ∃ buf, combine_segments segments rate = some buf ∧
      (buf.length : ℤ) = pyInt (last.base.seg.endTime * rate) := by
  have hmem : last ∈ segments := List.mem_of_getLast?_eq_some hlast
  have hend : (0 : ℚ) ≤ last.base.seg.endTime :=
    le_trans (hrange last hmem).1 (hrange last hmem).2
  have hendr : (0 : ℚ) ≤ last.base.seg.endTime * rate :=
    mul_nonneg hend (by positivity)
  have hle : ∀ s ∈ segments, startSample rate s.base.seg ≤
      (List.replicate (pyInt (last.base.seg.endTime * rate)).toNat (0 : ℚ)).length := by
    intro s hs
    rw [List.length_replicate]
    unfold startSample
    apply Int.toNat_le_toNat
    rw [pyInt_of_nonneg (mul_nonneg (hrange s hs).1 (by positivity)),
      pyInt_of_nonneg hendr]
    exact Int.floor_le_floor (mul_le_mul_of_nonneg_right (hrange s hs).2 (by positivity))
  obtain ⟨buf, hbuf, hlen⟩ := placeSegments_some segments _ hle
  refine ⟨buf, ?_, ?_⟩
  · unfold combine_segments
    rw [hlast]
    exact hbuf
  · rw [hlen, List.length_replicate]
    refine Int.toNat_of_nonneg ?_
    rw [pyInt_of_nonneg hendr]
    exact Int.floor_nonneg.mpr hendr

theorem combine_length_eq_trunc_witness :
    ∃ buf, combine_segments [c1seg] 1 = some buf ∧
      (buf.length : ℤ) = pyInt (c1seg.base.seg.endTime * ((1 : ℕ) : ℚ)) :=
  combine_length_eq_trunc [c1seg] 1 c1seg rfl (by
    intro s hs
    rw [List.mem_singleton] at hs
    subst hs
    constructor <;> norm_num [c1seg])

/-- C1 counterexample: at `end = 3/4` s and rate 2, the composed buffer has
1 sample while `round(end * rate) = 2`, refuting the claimed
`round(last_segment.end * target_rate)` length. -/
theorem combine_length_round_cex :
    (combine_segments [c1cexSeg] 2).map List.length = some 1 ∧
    round (c1cexSeg.base.seg.endTime * ((2 : ℕ) : ℚ)) = 2 ∧
    (combine_segments [c1cexSeg] 2).map List.length ≠
      some (round (c1cexSeg.base.seg.endTime * ((2 : ℕ) : ℚ))).toNat := by
  have hpy : pyInt (c1cexSeg.base.seg.endTime * ((2 : ℕ) : ℚ)) = 1 := by
    apply pyInt_eq <;> norm_num [c1cexSeg]
  have hcomb : combine_segments [c1cexSeg] 2 = some [0] := by
    show placeSegments 2 [c1cexSeg]
      (List.replicate (pyInt (c1cexSeg.base.seg.endTime * ((2 : ℕ) : ℚ))).toNat 0)
        = some [0]
    rw [hpy]
    rfl
  have hround : round (c1cexSeg.base.seg.endTime * ((2 : ℕ) : ℚ)) = 2 := by
    rw [round_eq,
      show c1cexSeg.base.seg.endTime * ((2 : ℕ) : ℚ) + 1 / 2 = ((2 : ℤ) : ℚ) by
        norm_num [c1cexSeg]]
    exact Int.floor_intCast 2
  refine ⟨by rw [hcomb]; rfl, hround, ?_⟩
  rw [hcomb, hround]
  simp

/-- C2: an empty segment sequence makes `combine_segments` signal the
empty-timeline condition (log an error and return `None` to the caller)
without producing any output buffer — no zero-length file is written. -/
theorem combine_empty_none (rate : ℕ) : combine_segments [] rate = none := rfl

lemma translateElem_seg (tr : String → Option String) (s : Segment) :
    (translateElem tr s).seg = s := by
  unfold translateElem
  split
  · rfl
  · cases tr s.text <;> rfl

lemma placeSegments_cons_some {rate : ℕ} {s : SynthSegment} {rest : List SynthSegment}
    {buf b1 a : List ℚ} (ha : s.audio_path = some a)
    (hw : writeClip buf (startSample rate s.base.seg) a = some b1) :
    placeSegments rate (s :: rest) buf = placeSegments rate rest b1 := by
  simp only [placeSegments, ha, hw]

lemma placeSegments_cons_none {rate : ℕ} {s : SynthSegment} {rest : List SynthSegment}
    {buf : List ℚ} (ha : s.audio_path = none) :
    placeSegments rate (s :: rest) buf = placeSegments rate rest buf := by
  simp only [placeSegments, ha]

/-- C6: for every translator/synthesizer behaviour — so for every pattern
of per-segment failures, none, some or all — the translate and synthesize
stages emit exactly one output per input, at the same position: lengths are
preserved and the element at index `i` carries input segment `i` unchanged
(`{**segment, …}` keeps the base fields; no permutation, no drop). -/
theorem stage_length_order_preserved :
    (∀ (tr : String → Option String) (segments : List Segment),
      (translate_segments tr segments).length = segments.length ∧
      ∀ i : ℕ, ((translate_segments tr segments)[i]?).map (fun t => t.seg)
        = segments[i]?) ∧
    (∀ (synth : String → Option (List ℚ)) (segments : List TranslatedSegment),
      (synthesize_segments synth segments).length = segments.length ∧
      ∀ i : ℕ, ((synthesize_segments synth segments)[i]?).map (fun u => u.base)
        = segments[i]?) := by
  constructor
  · intro tr segments
    rw [translate_segments_eq_map]
    refine ⟨List.length_map _ _, fun i => ?_⟩
    rw [List.getElem?_map]
    cases segments[i]? with
    | none => rfl
    | some s => simp [translateElem_seg]
  · intro synth segments
    rw [synthesize_segments_eq_map]
    refine ⟨List.length_map _ _, fun i => ?_⟩
    rw [List.getElem?_map]
    cases segments[i]? with
    | none => rfl
    | some t => simp [synthElem]

/-- C7: when the translation call for a (non-blank) segment raises, that
segment is kept at its own position with `translated_text` set to its own
source text (identity fallback), the batch length is unchanged, and the
translator is invoked exactly once per non-blank segment — so the failing
segment is neither dropped nor retried. -/
theorem translate_failure_identity_fallback (tr : String → Option String)
    (segments : List Segment) (i : ℕ) (s : Segment)
    (hget : segments[i]? = some s) (hnb : blank s.text = false)
    (hfail : tr s.text = none) :
    (translate_segments tr segments)[i]? = some ⟨s, s.text, s.text⟩ ∧
    (translate_segments tr segments).length = segments.length ∧
    translateCalls tr segments
      = (segments.filter (fun u => !blank u.text)).map (fun u => u.text) := by
  refine ⟨?_, ?_, translateCalls_eq tr segments⟩
  · rw [translate_segments_eq_map, List.getElem?_map, hget]
    simp [translateElem, hnb, hfail]
  · rw [translate_segments_eq_map]
    exact List.length_map _ _

theorem translate_failure_identity_fallback_witness :
    (translate_segments (fun _ => none) [csegA])[0]? = some ⟨csegA, csegA.text, csegA.text⟩ ∧
    (translate_segments (fun _ => none) [csegA]).length = [csegA].length ∧
    translateCalls (fun _ => none) [csegA]
      = ([csegA].filter (fun u => !blank u.text)).map (fun u => u.text) :=
  translate_failure_identity_fallback (fun _ => none) [csegA] 0 csegA rfl (by decide) rfl

/-- C10: a segment whose source text is blank short-circuits both stages:
the translate stage emits it with `translated_text = ""` without invoking
the translation model (no blank text is ever passed to the model), and the
synthesize stage then emits it with absent audio without invoking the TTS
model; the segment stays present at its position in both outputs. -/
theorem blank_source_short_circuit (tr : String → Option String)
    (synth : String → Option (List ℚ)) (segments : List Segment) (i : ℕ)
    (s : Segment) (hget : segments[i]? = some s) (hb : blank s.text = true) :
    (translate_segments tr segments)[i]? = some ⟨s, s.text, ""⟩ ∧
    (∀ c ∈ translateCalls tr segments, blank c = false) ∧
    (synthesize_segments synth (translate_segments tr segments))[i]?
      = some ⟨⟨s, s.text, ""⟩, none⟩ ∧
    (∀ c ∈ synthCalls synth (translate_segments tr segments), blank c = false) := by
  have h1 : (translate_segments tr segments)[i]? = some ⟨s, s.text, ""⟩ := by
    rw [translate_segments_eq_map, List.getElem?_map, hget]
    simp [translateElem, hb]
  refine ⟨h1, ?_, ?_, ?_⟩
  · intro c hc
    rw [translateCalls_eq] at hc
    obtain ⟨u, hu, rfl⟩ := List.mem_map.mp hc
    simpa using (List.mem_filter.mp hu).2
  · rw [synthesize_segments_eq_map, List.getElem?_map, h1]
    simp [synthElem, show blank "" = true from rfl]
  · intro c hc
    rw [synthCalls_eq] at hc
    obtain ⟨u, hu, rfl⟩ := List.mem_map.mp hc
    simpa using (List.mem_filter.mp hu).2

theorem blank_source_short_circuit_witness :
    (translate_segments (fun t => some t) [csegBlank])[0]?
      = some ⟨csegBlank, csegBlank.text, ""⟩ ∧
    (∀ c ∈ translateCalls (fun t => some t) [csegBlank], blank c = false) ∧
    (synthesize_segments (fun _ => some [1])
        (translate_segments (fun t => some t) [csegBlank]))[0]?
      = some ⟨⟨csegBlank, csegBlank.text, ""⟩, none⟩ ∧
    (∀ c ∈ synthCalls (fun _ => some [1])
        (translate_segments (fun t => some t) [csegBlank]), blank c = false) :=
  blank_source_short_circuit (fun t => some t) (fun _ => some [1]) [csegBlank] 0
    csegBlank rfl rfl

/-- C8 (amended): a segment whose synthesis call fails or whose translated
text is blank is still emitted, with rendered audio absent; and in the
composed buffer every sample position that no segment's written clip
covers stays all-silence (zero). The claim's stronger reading — the whole
region of an audio-less segment is silent — holds only when no other
segment's clip overlaps that region: the compositor skips absent segments
instead of zeroing their span, and overlapping writes are allowed (see the
counterexample). -/
theorem synth_fallback_and_untouched_silence :
    (∀ (synth : String → Option (List ℚ)) (segments : List TranslatedSegment)
      (i : ℕ) (t : TranslatedSegment), segments[i]? = some t →
      (blank t.translated_text = true ∨ synth t.translated_text = none) →
      (synthesize_segments synth segments)[i]? = some ⟨t, none⟩) ∧
    (∀ (segments : List SynthSegment) (rate : ℕ) (buf : List ℚ) (k : ℕ),
      combine_segments segments rate = some buf →
      (∀ s ∈ segments, ∀ a, s.audio_path = some a →
        k < startSample rate s.base.seg ∨
          startSample rate s.base.seg
            + min a.length (buf.length - startSample rate s.base.seg) ≤ k) →
      k < buf.length → buf[k]? = some 0) := by
  constructor
  · intro synth segments i t hget hfail
    rw [synthesize_segments_eq_map, List.getElem?_map, hget]
    rcases hfail with hb | hn
    · simp [synthElem, hb]
    · simp [synthElem, hn]
  · intro segments rate buf k hcomb huntouched hk
    unfold combine_segments at hcomb
    cases hlast : segments.getLast? with
    | none =>
      simp only [hlast] at hcomb
      exact Option.noConfusion hcomb
    | some last =>
      simp only [hlast] at hcomb
      have hlen : buf.length
          = (List.replicate (pyInt (last.base.seg.endTime * rate)).toNat (0 : ℚ)).length :=
        placeSegments_length segments _ buf hcomb
      have huntouched2 : ∀ s ∈ segments, ∀ a, s.audio_path = some a →
          k < startSample rate s.base.seg ∨
            startSample rate s.base.seg
              + min a.length
                ((List.replicate (pyInt (last.base.seg.endTime * rate)).toNat
                  (0 : ℚ)).length - startSample rate s.base.seg) ≤ k := by
        intro s hs a ha
        rw [← hlen]
        exact huntouched s hs a ha
      have hk2 : k < (pyInt (last.base.seg.endTime * rate)).toNat := by
        rw [hlen, List.length_replicate] at hk
        exact hk
      rw [placeSegments_untouched segments _ buf hcomb huntouched2]
      exact List.getElem?_replicate_of_lt hk2

theorem synth_fallback_and_untouched_silence_witness :
    (synthesize_segments (fun _ => none) [ts8])[0]? = some ⟨ts8, none⟩ ∧
    ([1, 1, 1, 1, 0, 0, 0, 0] : List ℚ)[5]? = some 0 := by
  have hpy8 : pyInt (c8w1.base.seg.endTime * ((2 : ℕ) : ℚ)) = 8 := by
    apply pyInt_eq <;> norm_num [c8w1]
  have hpy0 : pyInt (c8w0.base.seg.start * ((2 : ℕ) : ℚ)) = 0 := by
    apply pyInt_eq <;> norm_num [c8w0]
  have hss0 : startSample 2 c8w0.base.seg = 0 := by
    unfold startSample
    rw [hpy0]
    rfl
  have hw0 : writeClip (List.replicate (8 : ℤ).toNat (0 : ℚ))
      (startSample 2 c8w0.base.seg) [1, 1, 1, 1]
      = some [1, 1, 1, 1, 0, 0, 0, 0] := by
    rw [hss0]
    rfl
  have hcomb8 : combine_segments [c8w0, c8w1] 2 = some [1, 1, 1, 1, 0, 0, 0, 0] := by
    show placeSegments 2 [c8w0, c8w1]
      (List.replicate (pyInt (c8w1.base.seg.endTime * ((2 : ℕ) : ℚ))).toNat 0)
        = some [1, 1, 1, 1, 0, 0, 0, 0]
    rw [hpy8, placeSegments_cons_some rfl hw0, placeSegments_cons_none rfl]
    rfl
  constructor
  · exact synth_fallback_and_untouched_silence.1 (fun _ => none) [ts8] 0 ts8 rfl
      (Or.inr rfl)
  · refine synth_fallback_and_untouched_silence.2 [c8w0, c8w1] 2
      [1, 1, 1, 1, 0, 0, 0, 0] 5 hcomb8 ?_ (by decide)
    intro s hs a ha
    rcases List.mem_cons.mp hs with rfl | hs
    · rw [show c8w0.audio_path = some [1, 1, 1, 1] from rfl] at ha
      obtain rfl := Option.some.inj ha
      right
      rw [hss0]
      decide
    · rw [List.mem_singleton] at hs
      subst hs
      rw [show c8w1.audio_path = none from rfl] at ha
      exact Option.noConfusion ha

/-- C8 counterexample: `cxB` carries no audio, yet sample 2 of the composed
buffer — inside `cxB`'s own region, which starts at sample
`startSample = 2` — holds amplitude 1, not silence, because `cxA`'s clip
overlaps the region and the compositor never zeroes an absent segment's
span. -/
theorem absent_audio_region_overlap_cex :
    combine_segments [cxA, cxB] 2 = some [1, 1, 1, 1, 0, 0] ∧
    cxB.audio_path = none ∧
    startSample 2 cxB.base.seg = 2 ∧
    ([1, 1, 1, 1, 0, 0] : List ℚ)[2]? = some 1 ∧
    (1 : ℚ) ≠ 0 := by
  have hpy6 : pyInt (cxB.base.seg.endTime * ((2 : ℕ) : ℚ)) = 6 := by
    apply pyInt_eq <;> norm_num [cxB]
  have hpyA : pyInt (cxA.base.seg.start * ((2 : ℕ) : ℚ)) = 0 := by
    apply pyInt_eq <;> norm_num [cxA]
  have hpyB : pyInt (cxB.base.seg.start * ((2 : ℕ) : ℚ)) = 2 := by
    apply pyInt_eq <;> norm_num [cxB]
  have hssA : startSample 2 cxA.base.seg = 0 := by
    unfold startSample
    rw [hpyA]
    rfl
  have hwA : writeClip (List.replicate (6 : ℤ).toNat (0 : ℚ))
      (startSample 2 cxA.base.seg) [1, 1, 1, 1] = some [1, 1, 1, 1, 0, 0] := by
    rw [hssA]
    rfl
  refine ⟨?_, rfl, ?_, rfl, by norm_num⟩
  · show placeSegments 2 [cxA, cxB]
      (List.replicate (pyInt (cxB.base.seg.endTime * ((2 : ℕ) : ℚ))).toNat 0)
        = some [1, 1, 1, 1, 0, 0]
    rw [hpy6, placeSegments_cons_some rfl hwA, placeSegments_cons_none rfl]
    rfl
  · unfold startSample
    rw [hpyB]
    rfl

/-- C5 counterexample: under the translator `ctr` — which deterministically
succeeds on each segment text but raises on the joined context window
`"a b"` — `translate_with_context` falls back to the source texts while
`translate_segments` translates them, so the two stages do not emit the
same `translated_text`. -/
theorem context_translation_cex :
    (translate_with_context ctr 2 csegs5).map (fun t => t.translated_text)
      = ["a", "b"] ∧
    (translate_segments ctr csegs5).map (fun t => t.translated_text)
      = ["A", "B"] ∧
    translate_with_context ctr 2 csegs5 ≠ translate_segments ctr csegs5 := by
  have h1 : (translate_with_context ctr 2 csegs5).map (fun t => t.translated_text)
      = ["a", "b"] := by decide
  have h2 : (translate_segments ctr csegs5).map (fun t => t.translated_text)
      = ["A", "B"] := by decide
  refine ⟨h1, h2, fun heq => ?_⟩
  rw [heq, h2] at h1
  exact absurd h1 (by decide)

/-- C5 (amended): whenever the translator succeeds on every text it is
given — in particular on every joined context window — context translation
emits segment by segment exactly the per-segment translations of the plain
path: the context-window translation is computed and discarded, and each
segment is retranslated alone. (When the translator fails on a context
window but succeeds on the segment alone, the two paths diverge: see the
counterexample.) -/
theorem context_translation_agrees_of_total (tr : String → Option String)
    (context_window : ℕ) (segments : List Segment)
    (h : ∀ t, (tr t).isSome = true) :
    translate_with_context tr context_window segments
      = translate_segments tr segments := by
  rw [translate_segments_eq_map]
  unfold translate_with_context
  conv_rhs => rw [← List.enum_map_snd segments]
  rw [List.map_map]
  apply List.map_congr_left
  intro p _
  rcases p with ⟨i, s⟩
  simp only [Function.comp_apply]
  obtain ⟨u, hu⟩ : ∃ u, translateText tr (contextText segments context_window i) = some u := by
    unfold translateText
    split
    · exact ⟨"", rfl⟩
    · exact Option.isSome_iff_exists.mp (h _)
  rw [hu]
  unfold translateElem translateText
  by_cases hb : blank s.text = true
  · rw [if_pos hb, if_pos hb]
  · rw [if_neg hb, if_neg hb]
    cases tr s.text <;> rfl

theorem context_translation_agrees_of_total_witness :
    translate_with_context (fun t => some t) 2 csegs5
      = translate_segments (fun t => some t) csegs5 :=
  context_translation_agrees_of_total (fun t => some t) 2 csegs5 (fun _ => rfl)

/-- C9: whenever the composed timeline's duration is within the 1.0-second
tolerance of the source duration, the duration reconciler is a no-op — the
timeline is returned unchanged — and hence applying it a second time to the
already-reconciled (in-tolerance) timeline again changes nothing. -/
theorem reconciler_noop_within_tolerance (stretch : List ℚ → ℚ → Option (List ℚ))
    (original_duration : ℚ) (buf : List ℚ) (sample_rate : ℕ)
    (h : |original_duration - (buf.length : ℚ) / (sample_rate : ℚ)| ≤ 1) :
    syncStep stretch original_duration buf sample_rate = some buf ∧
    (syncStep stretch original_duration buf sample_rate).bind
      (fun b => syncStep stretch original_duration b sample_rate) = some buf := by
  have h1 : syncStep stretch original_duration buf sample_rate = some buf := by
    unfold syncStep
    rw [if_neg (not_lt.mpr h)]
  refine ⟨h1, ?_⟩
  rw [h1]
  exact h1

theorem reconciler_noop_within_tolerance_witness :
    syncStep (fun _ _ => none) 2 [0, 0] 1 = some [0, 0] ∧
    (syncStep (fun _ _ => none) 2 [0, 0] 1).bind
      (fun b => syncStep (fun _ _ => none) 2 b 1) = some [0, 0] :=
  reconciler_noop_within_tolerance (fun _ _ => none) 2 [0, 0] 1 (by norm_num)

lemma runPipeline_live {d : RunDeps} {segs : List Segment} (hE : d.extractOk = true)
    (hT : d.transcription = some segs) (quality syncDuration : Bool) (rate : ℕ) :
    runPipeline d quality syncDuration rate
      = finishRun
          ((combine_segments (synthesize_segments d.synth
              (translatePhase d quality segs)) rate).bind
            (fun buf => if syncDuration then syncStep d.stretch d.origDur buf rate
              else some buf)) := by
  unfold runPipeline
  simp only [hE, hT]

lemma finishRun_cases (x : Option (List ℚ)) :
    finishRun x = (RunOutcome.failed, []) ∨
    ∃ fb, finishRun x = (RunOutcome.succeeded fb, ["asr", "translation", "tts"]) := by
  cases x with
  | none => exact Or.inl rfl
  | some fb => exact Or.inr ⟨fb, rfl⟩

lemma runPipeline_cases (d : RunDeps) (quality syncDuration : Bool) (rate : ℕ) :
    runPipeline d quality syncDuration rate = (RunOutcome.failed, []) ∨
    ∃ fb, runPipeline d quality syncDuration rate
      = (RunOutcome.succeeded fb, ["asr", "translation", "tts"]) := by
  unfold runPipeline
  cases d.extractOk with
  | false => exact Or.inl rfl
  | true =>
    cases d.transcription with
    | none => exact Or.inl rfl
    | some segs => exact finishRun_cases _

lemma pyInt_toNat_eq {q : ℚ} {n : ℕ} (hq : 0 ≤ q) (h1 : (n : ℚ) ≤ q)
    (h2 : q < n + 1) : (pyInt q).toNat = n := by
  have h := @pyInt_eq q (n : ℤ) hq (by exact_mod_cast h1) (by exact_mod_cast h2)
  rw [h]
  exact Int.toNat_natCast n

lemma startSample_eq {rate : ℕ} {s : Segment} {n : ℕ} (hq : 0 ≤ s.start * rate)
    (h1 : (n : ℚ) ≤ s.start * rate) (h2 : s.start * rate < n + 1) :
    startSample rate s = n := by
  unfold startSample
  exact pyInt_toNat_eq hq h1 h2

lemma combine_segments_eq (segments : List SynthSegment) (rate : ℕ)
    (last : SynthSegment) (n : ℕ) (hlast : segments.getLast? = some last)
    (hn : (pyInt (last.base.seg.endTime * rate)).toNat = n) :
    combine_segments segments rate
      = placeSegments rate segments (List.replicate n 0) := by
  unfold combine_segments
  simp only [hlast, hn]

lemma startSample_seg1 : startSample 1 seg1 = 0 :=
  startSample_eq (by norm_num [seg1]) (by norm_num [seg1]) (by norm_num [seg1])

lemma combine_seg1_eval :
    combine_segments (synthesize_segments syConst (translate_segments trId [seg1])) 1
      = some [1, 1] := by
  have h1 : synthesize_segments syConst (translate_segments trId [seg1])
      = [⟨⟨seg1, "hi", "hi"⟩, some [1, 1]⟩] := rfl
  rw [h1, combine_segments_eq [⟨⟨seg1, "hi", "hi"⟩, some [1, 1]⟩] 1
    ⟨⟨seg1, "hi", "hi"⟩, some [1, 1]⟩ 2 rfl
    (pyInt_toNat_eq (by norm_num [seg1]) (by norm_num [seg1]) (by norm_num [seg1]))]
  rw [placeSegments_cons_some rfl
    (show writeClip (List.replicate 2 (0 : ℚ))
        (startSample 1 (⟨⟨seg1, "hi", "hi"⟩, some [1, 1]⟩ : SynthSegment).base.seg)
        [1, 1] = some [1, 1] by rw [show startSample 1
          (⟨⟨seg1, "hi", "hi"⟩, some [1, 1]⟩ : SynthSegment).base.seg = 0
          from startSample_seg1]; rfl)]
  rfl

lemma runPipeline_sdeps_eval :
    runPipeline sdeps false true 1
      = (RunOutcome.succeeded [1, 1], ["asr", "translation", "tts"]) := by
  rw [runPipeline_live rfl rfl false true 1]
  rw [show combine_segments (synthesize_segments sdeps.synth
      (translatePhase sdeps false [seg1])) 1 = some [1, 1] from combine_seg1_eval]
  show finishRun (syncStep sdeps.stretch sdeps.origDur [1, 1] 1) = _
  rw [show syncStep sdeps.stretch sdeps.origDur [1, 1] 1 = some [1, 1] by
    unfold syncStep
    rw [if_neg (by norm_num [sdeps])]]
  rfl

/-- C4 (amended): the three `unload_model` calls run exactly on the
`Succeeded` exit; on every `Failed` exit — in particular when an exception
aborts the stage sequence partway — no unload is invoked, because the
unload calls sit at the end of the `try` block and `run` has no
`finally`. -/
theorem unload_only_on_success (d : RunDeps) (quality syncDuration : Bool)
    (rate : ℕ) :
    ((runPipeline d quality syncDuration rate).1 = RunOutcome.failed →
      (runPipeline d quality syncDuration rate).2 = []) ∧
    (∀ buf, (runPipeline d quality syncDuration rate).1 = RunOutcome.succeeded buf →
      (runPipeline d quality syncDuration rate).2 = ["asr", "translation", "tts"]) := by
  rcases runPipeline_cases d quality syncDuration rate with h | ⟨fb, h⟩
  · rw [h]
    exact ⟨fun _ => rfl, fun b hb => RunOutcome.noConfusion hb⟩
  · rw [h]
    exact ⟨fun hb => RunOutcome.noConfusion hb, fun b _ => rfl⟩

theorem unload_only_on_success_witness :
    (runPipeline fdeps false true 1).2 = [] ∧
    (runPipeline sdeps false true 1).2 = ["asr", "translation", "tts"] :=
  ⟨(unload_only_on_success fdeps false true 1).1 rfl,
   (unload_only_on_success sdeps false true 1).2 [1, 1]
     (by rw [runPipeline_sdeps_eval])⟩

/-- C4 counterexample: when the recognition stage raises, the run exits
`Failed` with an empty unload trace — no model's unload capability is
invoked on the `Failed` exit, contradicting the claimed scoped
acquisition/release on both exits. -/
theorem unload_skipped_on_failure_cex :
    runPipeline fdeps false true 1 = (RunOutcome.failed, []) ∧
    (runPipeline fdeps false true 1).2 ≠ ["asr", "translation", "tts"] := by
  refine ⟨rfl, ?_⟩
  rw [show (runPipeline fdeps false true 1).2 = [] from rfl]
  simp

/-- C3 (amended): when the run reaches the duration-sync step, the composed
duration is out of tolerance, and the time-stretch transform fails, the
exception propagates to the run's outer handler: the whole run transitions
to `Failed` (with no unloads) — the unreconciled composed timeline is NOT
kept and the run does not complete successfully. -/
theorem stretch_failure_fails_run (d : RunDeps) (quality : Bool) (rate : ℕ)
    (segs : List Segment) (buf : List ℚ)
    (hE : d.extractOk = true) (hT : d.transcription = some segs)
    (hC : combine_segments (synthesize_segments d.synth
      (translatePhase d quality segs)) rate = some buf)
    (hTol : 1 < |d.origDur - (buf.length : ℚ) / (rate : ℚ)|)
    (hFail : match_duration d.stretch buf d.origDur rate = none) :
    runPipeline d quality true rate = (RunOutcome.failed, []) := by
  rw [runPipeline_live hE hT quality true rate, hC]
  show finishRun (syncStep d.stretch d.origDur buf rate) = _
  unfold syncStep
  rw [if_pos hTol, hFail]
  rfl

theorem stretch_failure_fails_run_witness :
    runPipeline cdeps3 false true 1 = (RunOutcome.failed, []) :=
  stretch_failure_fails_run cdeps3 false 1 [seg1] [1, 1] rfl rfl
    combine_seg1_eval (by norm_num [cdeps3]) rfl

/-- C3 counterexample: with every stage healthy, the sync step required
(|30 − 2| > 1) and the stretch transform failing, the run ends `Failed`
with no output — it does not complete successfully with the unreconciled
timeline as the claim states. -/
theorem stretch_failure_run_cex :
    runPipeline cdeps3 false true 1 = (RunOutcome.failed, []) ∧
    (runPipeline cdeps3 false true 1).1 ≠ RunOutcome.succeeded [1, 1] := by
  have h : runPipeline cdeps3 false true 1 = (RunOutcome.failed, []) := by
    rw [runPipeline_live rfl rfl false true 1]
    rw [show combine_segments (synthesize_segments cdeps3.synth
        (translatePhase cdeps3 false [seg1])) 1 = some [1, 1] from combine_seg1_eval]
    show finishRun (syncStep cdeps3.stretch cdeps3.origDur [1, 1] 1) = _
    unfold syncStep
    rw [if_pos (by norm_num [cdeps3])]
    rfl
  refine ⟨h, ?_⟩
  rw [h]
  simp
